import Mathlib

/-!
Verification of the cross-platform product-matching and price-ranking engine
of the price-comparison repository (module price_comparison.py, class
PriceComparison).

The Python code is shallowly embedded: each method of the class becomes a
Lean function over explicit data.  Python strings are Lean String values
(lists of unicode characters), Python float results of the price/similarity
arithmetic are modelled as exact rationals, Python None / exceptions are
modelled with Option / Except.  The Unicode tables consulted by the code
(str.lower, unicodedata NFKD decomposition, the regex classes \w, \s and
\d) are modelled per character against Unicode 14.0: exactly on all ASCII
input; the NFKD table covers the Latin-1 accented lowercase letters and
every code point that str.lower fixes and whose NFKD decomposition
contains an uppercase ASCII letter (the class that defeats idempotence of
normalize_text); the digit class \d is the full Unicode Nd table.  Code
points outside the modelled NFKD table decompose to themselves.  The
classes \w and \s are only ever applied after the ASCII encode/ignore
step of normalize_text, where the ASCII tables are exact.
-/

namespace PriceComparison

/-- Python str.lower, modelled on ASCII and Latin-1: code points 0x41-0x5A
(A-Z) and 0xC0-0xDE except 0xD7 (the Latin-1 uppercase letters) are moved
down by 32; every other character is unchanged. -/
def pyLower (c : Char) : Char :=
  if (0x41 ≤ c.toNat ∧ c.toNat ≤ 0x5A) ∨
     (0xC0 ≤ c.toNat ∧ c.toNat ≤ 0xDE ∧ c.toNat ≠ 0xD7) then
    Char.ofNat (c.toNat + 32)
  else c

/-- Unicode 14.0 NFKD decomposition table, modelled per character for
the code points that matter after str.lower in normalize_text: the
Latin-1 accented lowercase letters (base letter plus combining mark,
code points 0x300-0x30A and 0x327), and every code point that str.lower
leaves unchanged and whose NFKD decomposition contains an uppercase
ASCII letter (modifier capitals, letterlike symbols such as the trade
mark sign, mathematical alphanumerics, squared and circled
abbreviations) — the decompositions that survive the ASCII filter as
uppercase.  Code points outside the table decompose to themselves
(decompositions producing only lowercase or non-ASCII output are not
modelled; the ASCII filter removes any non-ASCII part).  The table is
split into chunks to keep each literal small; every key is at least
0xE0 (nfkdTable_keys below). -/
def nfkdTable1 : List (ℕ × List ℕ) :=
  [(0xE0, [0x61, 0x300]), (0xE1, [0x61, 0x301]), (0xE2, [0x61, 0x302]), (0xE3, [0x61, 0x303]),
   (0xE4, [0x61, 0x308]), (0xE5, [0x61, 0x30A]), (0xE7, [0x63, 0x327]), (0xE8, [0x65, 0x300]),
   (0xE9, [0x65, 0x301]), (0xEA, [0x65, 0x302]), (0xEB, [0x65, 0x308]), (0xEC, [0x69, 0x300]),
   (0xED, [0x69, 0x301]), (0xEE, [0x69, 0x302]), (0xEF, [0x69, 0x308]), (0xF1, [0x6E, 0x303]),
   (0xF2, [0x6F, 0x300]), (0xF3, [0x6F, 0x301]), (0xF4, [0x6F, 0x302]), (0xF5, [0x6F, 0x303]),
   (0xF6, [0x6F, 0x308]), (0xF9, [0x75, 0x300]), (0xFA, [0x75, 0x301]), (0xFB, [0x75, 0x302]),
   (0xFC, [0x75, 0x308]), (0xFD, [0x79, 0x301]), (0xFF, [0x79, 0x308]), (0x1D2C, [0x41]),
   (0x1D2E, [0x42]), (0x1D30, [0x44]), (0x1D31, [0x45]), (0x1D33, [0x47]), (0x1D34, [0x48]),
   (0x1D35, [0x49]), (0x1D36, [0x4A]), (0x1D37, [0x4B]), (0x1D38, [0x4C]), (0x1D39, [0x4D]),
   (0x1D3A, [0x4E]), (0x1D3C, [0x4F]), (0x1D3E, [0x50]), (0x1D3F, [0x52]), (0x1D40, [0x54]),
   (0x1D41, [0x55]), (0x1D42, [0x57]), (0x20A8, [0x52, 0x73]), (0x2102, [0x43]),
   (0x2103, [0xB0, 0x43]), (0x2109, [0xB0, 0x46]), (0x210B, [0x48]), (0x210C, [0x48]),
   (0x210D, [0x48]), (0x2110, [0x49]), (0x2111, [0x49]), (0x2112, [0x4C]), (0x2115, [0x4E]),
   (0x2116, [0x4E, 0x6F]), (0x2119, [0x50]), (0x211A, [0x51]), (0x211B, [0x52]),
   (0x211C, [0x52]), (0x211D, [0x52]), (0x2120, [0x53, 0x4D]), (0x2121, [0x54, 0x45, 0x4C]),
   (0x2122, [0x54, 0x4D]), (0x2124, [0x5A]), (0x2128, [0x5A]), (0x212C, [0x42]),
   (0x212D, [0x43]), (0x2130, [0x45]), (0x2131, [0x46]), (0x2133, [0x4D]),
   (0x213B, [0x46, 0x41, 0x58]), (0x2145, [0x44]), (0x2C7D, [0x56]),
   (0x3250, [0x50, 0x54, 0x45]), (0x32CC, [0x48, 0x67]), (0x32CE, [0x65, 0x56]),
   (0x32CF, [0x4C, 0x54, 0x44]), (0x3371, [0x68, 0x50, 0x61]), (0x3373, [0x41, 0x55]),
   (0x3375, [0x6F, 0x56]), (0x337A, [0x49, 0x55]), (0x3380, [0x70, 0x41]),
   (0x3381, [0x6E, 0x41]), (0x3382, [0x3BC, 0x41]), (0x3383, [0x6D, 0x41]),
   (0x3384, [0x6B, 0x41]), (0x3385, [0x4B, 0x42]), (0x3386, [0x4D, 0x42])]

def nfkdTable2 : List (ℕ × List ℕ) :=
  [(0x3387, [0x47, 0x42]), (0x338A, [0x70, 0x46]), (0x338B, [0x6E, 0x46]),
   (0x338C, [0x3BC, 0x46]), (0x3390, [0x48, 0x7A]), (0x3391, [0x6B, 0x48, 0x7A]),
   (0x3392, [0x4D, 0x48, 0x7A]), (0x3393, [0x47, 0x48, 0x7A]), (0x3394, [0x54, 0x48, 0x7A]),
   (0x33A9, [0x50, 0x61]), (0x33AA, [0x6B, 0x50, 0x61]), (0x33AB, [0x4D, 0x50, 0x61]),
   (0x33AC, [0x47, 0x50, 0x61]), (0x33B4, [0x70, 0x56]), (0x33B5, [0x6E, 0x56]),
   (0x33B6, [0x3BC, 0x56]), (0x33B7, [0x6D, 0x56]), (0x33B8, [0x6B, 0x56]),
   (0x33B9, [0x4D, 0x56]), (0x33BA, [0x70, 0x57]), (0x33BB, [0x6E, 0x57]),
   (0x33BC, [0x3BC, 0x57]), (0x33BD, [0x6D, 0x57]), (0x33BE, [0x6B, 0x57]),
   (0x33BF, [0x4D, 0x57]), (0x33C1, [0x4D, 0x3A9]), (0x33C3, [0x42, 0x71]),
   (0x33C6, [0x43, 0x2215, 0x6B, 0x67]), (0x33C7, [0x43, 0x6F, 0x2E]), (0x33C8, [0x64, 0x42]),
   (0x33C9, [0x47, 0x79]), (0x33CB, [0x48, 0x50]), (0x33CD, [0x4B, 0x4B]),
   (0x33CE, [0x4B, 0x4D]), (0x33D7, [0x50, 0x48]), (0x33D9, [0x50, 0x50, 0x4D]),
   (0x33DA, [0x50, 0x52]), (0x33DC, [0x53, 0x76]), (0x33DD, [0x57, 0x62]),
   (0x33DE, [0x56, 0x2215, 0x6D]), (0x33DF, [0x41, 0x2215, 0x6D]), (0xA7F2, [0x43]),
   (0xA7F3, [0x46]), (0xA7F4, [0x51]), (0x1D400, [0x41]), (0x1D401, [0x42]), (0x1D402, [0x43]),
   (0x1D403, [0x44]), (0x1D404, [0x45]), (0x1D405, [0x46]), (0x1D406, [0x47]), (0x1D407, [0x48]),
   (0x1D408, [0x49]), (0x1D409, [0x4A]), (0x1D40A, [0x4B]), (0x1D40B, [0x4C]), (0x1D40C, [0x4D]),
   (0x1D40D, [0x4E]), (0x1D40E, [0x4F]), (0x1D40F, [0x50]), (0x1D410, [0x51]), (0x1D411, [0x52]),
   (0x1D412, [0x53]), (0x1D413, [0x54]), (0x1D414, [0x55]), (0x1D415, [0x56]), (0x1D416, [0x57]),
   (0x1D417, [0x58]), (0x1D418, [0x59]), (0x1D419, [0x5A]), (0x1D434, [0x41]), (0x1D435, [0x42]),
   (0x1D436, [0x43]), (0x1D437, [0x44]), (0x1D438, [0x45]), (0x1D439, [0x46]), (0x1D43A, [0x47]),
   (0x1D43B, [0x48]), (0x1D43C, [0x49]), (0x1D43D, [0x4A]), (0x1D43E, [0x4B]), (0x1D43F, [0x4C]),
   (0x1D440, [0x4D]), (0x1D441, [0x4E]), (0x1D442, [0x4F]), (0x1D443, [0x50]), (0x1D444, [0x51]),
   (0x1D445, [0x52]), (0x1D446, [0x53]), (0x1D447, [0x54])]

def nfkdTable3 : List (ℕ × List ℕ) :=
  [(0x1D448, [0x55]), (0x1D449, [0x56]), (0x1D44A, [0x57]), (0x1D44B, [0x58]), (0x1D44C, [0x59]),
   (0x1D44D, [0x5A]), (0x1D468, [0x41]), (0x1D469, [0x42]), (0x1D46A, [0x43]), (0x1D46B, [0x44]),
   (0x1D46C, [0x45]), (0x1D46D, [0x46]), (0x1D46E, [0x47]), (0x1D46F, [0x48]), (0x1D470, [0x49]),
   (0x1D471, [0x4A]), (0x1D472, [0x4B]), (0x1D473, [0x4C]), (0x1D474, [0x4D]), (0x1D475, [0x4E]),
   (0x1D476, [0x4F]), (0x1D477, [0x50]), (0x1D478, [0x51]), (0x1D479, [0x52]), (0x1D47A, [0x53]),
   (0x1D47B, [0x54]), (0x1D47C, [0x55]), (0x1D47D, [0x56]), (0x1D47E, [0x57]), (0x1D47F, [0x58]),
   (0x1D480, [0x59]), (0x1D481, [0x5A]), (0x1D49C, [0x41]), (0x1D49E, [0x43]), (0x1D49F, [0x44]),
   (0x1D4A2, [0x47]), (0x1D4A5, [0x4A]), (0x1D4A6, [0x4B]), (0x1D4A9, [0x4E]), (0x1D4AA, [0x4F]),
   (0x1D4AB, [0x50]), (0x1D4AC, [0x51]), (0x1D4AE, [0x53]), (0x1D4AF, [0x54]), (0x1D4B0, [0x55]),
   (0x1D4B1, [0x56]), (0x1D4B2, [0x57]), (0x1D4B3, [0x58]), (0x1D4B4, [0x59]), (0x1D4B5, [0x5A]),
   (0x1D4D0, [0x41]), (0x1D4D1, [0x42]), (0x1D4D2, [0x43]), (0x1D4D3, [0x44]), (0x1D4D4, [0x45]),
   (0x1D4D5, [0x46]), (0x1D4D6, [0x47]), (0x1D4D7, [0x48]), (0x1D4D8, [0x49]), (0x1D4D9, [0x4A]),
   (0x1D4DA, [0x4B]), (0x1D4DB, [0x4C]), (0x1D4DC, [0x4D]), (0x1D4DD, [0x4E]), (0x1D4DE, [0x4F]),
   (0x1D4DF, [0x50]), (0x1D4E0, [0x51]), (0x1D4E1, [0x52]), (0x1D4E2, [0x53]), (0x1D4E3, [0x54]),
   (0x1D4E4, [0x55]), (0x1D4E5, [0x56]), (0x1D4E6, [0x57]), (0x1D4E7, [0x58]), (0x1D4E8, [0x59]),
   (0x1D4E9, [0x5A]), (0x1D504, [0x41]), (0x1D505, [0x42]), (0x1D507, [0x44]), (0x1D508, [0x45]),
   (0x1D509, [0x46]), (0x1D50A, [0x47]), (0x1D50D, [0x4A]), (0x1D50E, [0x4B]), (0x1D50F, [0x4C]),
   (0x1D510, [0x4D]), (0x1D511, [0x4E]), (0x1D512, [0x4F]), (0x1D513, [0x50]), (0x1D514, [0x51])]

def nfkdTable4 : List (ℕ × List ℕ) :=
  [(0x1D516, [0x53]), (0x1D517, [0x54]), (0x1D518, [0x55]), (0x1D519, [0x56]), (0x1D51A, [0x57]),
   (0x1D51B, [0x58]), (0x1D51C, [0x59]), (0x1D538, [0x41]), (0x1D539, [0x42]), (0x1D53B, [0x44]),
   (0x1D53C, [0x45]), (0x1D53D, [0x46]), (0x1D53E, [0x47]), (0x1D540, [0x49]), (0x1D541, [0x4A]),
   (0x1D542, [0x4B]), (0x1D543, [0x4C]), (0x1D544, [0x4D]), (0x1D546, [0x4F]), (0x1D54A, [0x53]),
   (0x1D54B, [0x54]), (0x1D54C, [0x55]), (0x1D54D, [0x56]), (0x1D54E, [0x57]), (0x1D54F, [0x58]),
   (0x1D550, [0x59]), (0x1D56C, [0x41]), (0x1D56D, [0x42]), (0x1D56E, [0x43]), (0x1D56F, [0x44]),
   (0x1D570, [0x45]), (0x1D571, [0x46]), (0x1D572, [0x47]), (0x1D573, [0x48]), (0x1D574, [0x49]),
   (0x1D575, [0x4A]), (0x1D576, [0x4B]), (0x1D577, [0x4C]), (0x1D578, [0x4D]), (0x1D579, [0x4E]),
   (0x1D57A, [0x4F]), (0x1D57B, [0x50]), (0x1D57C, [0x51]), (0x1D57D, [0x52]), (0x1D57E, [0x53]),
   (0x1D57F, [0x54]), (0x1D580, [0x55]), (0x1D581, [0x56]), (0x1D582, [0x57]), (0x1D583, [0x58]),
   (0x1D584, [0x59]), (0x1D585, [0x5A]), (0x1D5A0, [0x41]), (0x1D5A1, [0x42]), (0x1D5A2, [0x43]),
   (0x1D5A3, [0x44]), (0x1D5A4, [0x45]), (0x1D5A5, [0x46]), (0x1D5A6, [0x47]), (0x1D5A7, [0x48]),
   (0x1D5A8, [0x49]), (0x1D5A9, [0x4A]), (0x1D5AA, [0x4B]), (0x1D5AB, [0x4C]), (0x1D5AC, [0x4D]),
   (0x1D5AD, [0x4E]), (0x1D5AE, [0x4F]), (0x1D5AF, [0x50]), (0x1D5B0, [0x51]), (0x1D5B1, [0x52]),
   (0x1D5B2, [0x53]), (0x1D5B3, [0x54]), (0x1D5B4, [0x55]), (0x1D5B5, [0x56]), (0x1D5B6, [0x57]),
   (0x1D5B7, [0x58]), (0x1D5B8, [0x59]), (0x1D5B9, [0x5A]), (0x1D5D4, [0x41]), (0x1D5D5, [0x42]),
   (0x1D5D6, [0x43]), (0x1D5D7, [0x44]), (0x1D5D8, [0x45]), (0x1D5D9, [0x46]), (0x1D5DA, [0x47]),
   (0x1D5DB, [0x48]), (0x1D5DC, [0x49]), (0x1D5DD, [0x4A]), (0x1D5DE, [0x4B]), (0x1D5DF, [0x4C])]

def nfkdTable5 : List (ℕ × List ℕ) :=
  [(0x1D5E0, [0x4D]), (0x1D5E1, [0x4E]), (0x1D5E2, [0x4F]), (0x1D5E3, [0x50]), (0x1D5E4, [0x51]),
   (0x1D5E5, [0x52]), (0x1D5E6, [0x53]), (0x1D5E7, [0x54]), (0x1D5E8, [0x55]), (0x1D5E9, [0x56]),
   (0x1D5EA, [0x57]), (0x1D5EB, [0x58]), (0x1D5EC, [0x59]), (0x1D5ED, [0x5A]), (0x1D608, [0x41]),
   (0x1D609, [0x42]), (0x1D60A, [0x43]), (0x1D60B, [0x44]), (0x1D60C, [0x45]), (0x1D60D, [0x46]),
   (0x1D60E, [0x47]), (0x1D60F, [0x48]), (0x1D610, [0x49]), (0x1D611, [0x4A]), (0x1D612, [0x4B]),
   (0x1D613, [0x4C]), (0x1D614, [0x4D]), (0x1D615, [0x4E]), (0x1D616, [0x4F]), (0x1D617, [0x50]),
   (0x1D618, [0x51]), (0x1D619, [0x52]), (0x1D61A, [0x53]), (0x1D61B, [0x54]), (0x1D61C, [0x55]),
   (0x1D61D, [0x56]), (0x1D61E, [0x57]), (0x1D61F, [0x58]), (0x1D620, [0x59]), (0x1D621, [0x5A]),
   (0x1D63C, [0x41]), (0x1D63D, [0x42]), (0x1D63E, [0x43]), (0x1D63F, [0x44]), (0x1D640, [0x45]),
   (0x1D641, [0x46]), (0x1D642, [0x47]), (0x1D643, [0x48]), (0x1D644, [0x49]), (0x1D645, [0x4A]),
   (0x1D646, [0x4B]), (0x1D647, [0x4C]), (0x1D648, [0x4D]), (0x1D649, [0x4E]), (0x1D64A, [0x4F]),
   (0x1D64B, [0x50]), (0x1D64C, [0x51]), (0x1D64D, [0x52]), (0x1D64E, [0x53]), (0x1D64F, [0x54]),
   (0x1D650, [0x55]), (0x1D651, [0x56]), (0x1D652, [0x57]), (0x1D653, [0x58]), (0x1D654, [0x59]),
   (0x1D655, [0x5A]), (0x1D670, [0x41]), (0x1D671, [0x42]), (0x1D672, [0x43]), (0x1D673, [0x44]),
   (0x1D674, [0x45]), (0x1D675, [0x46]), (0x1D676, [0x47]), (0x1D677, [0x48]), (0x1D678, [0x49]),
   (0x1D679, [0x4A]), (0x1D67A, [0x4B]), (0x1D67B, [0x4C]), (0x1D67C, [0x4D]), (0x1D67D, [0x4E]),
   (0x1D67E, [0x4F]), (0x1D67F, [0x50]), (0x1D680, [0x51]), (0x1D681, [0x52]), (0x1D682, [0x53]),
   (0x1D683, [0x54]), (0x1D684, [0x55]), (0x1D685, [0x56]), (0x1D686, [0x57]), (0x1D687, [0x58])]

def nfkdTable6 : List (ℕ × List ℕ) :=
  [(0x1D688, [0x59]), (0x1D689, [0x5A]), (0x1F110, [0x28, 0x41, 0x29]),
   (0x1F111, [0x28, 0x42, 0x29]), (0x1F112, [0x28, 0x43, 0x29]), (0x1F113, [0x28, 0x44, 0x29]),
   (0x1F114, [0x28, 0x45, 0x29]), (0x1F115, [0x28, 0x46, 0x29]), (0x1F116, [0x28, 0x47, 0x29]),
   (0x1F117, [0x28, 0x48, 0x29]), (0x1F118, [0x28, 0x49, 0x29]), (0x1F119, [0x28, 0x4A, 0x29]),
   (0x1F11A, [0x28, 0x4B, 0x29]), (0x1F11B, [0x28, 0x4C, 0x29]), (0x1F11C, [0x28, 0x4D, 0x29]),
   (0x1F11D, [0x28, 0x4E, 0x29]), (0x1F11E, [0x28, 0x4F, 0x29]), (0x1F11F, [0x28, 0x50, 0x29]),
   (0x1F120, [0x28, 0x51, 0x29]), (0x1F121, [0x28, 0x52, 0x29]), (0x1F122, [0x28, 0x53, 0x29]),
   (0x1F123, [0x28, 0x54, 0x29]), (0x1F124, [0x28, 0x55, 0x29]), (0x1F125, [0x28, 0x56, 0x29]),
   (0x1F126, [0x28, 0x57, 0x29]), (0x1F127, [0x28, 0x58, 0x29]), (0x1F128, [0x28, 0x59, 0x29]),
   (0x1F129, [0x28, 0x5A, 0x29]), (0x1F12A, [0x3014, 0x53, 0x3015]), (0x1F12B, [0x43]),
   (0x1F12C, [0x52]), (0x1F12D, [0x43, 0x44]), (0x1F12E, [0x57, 0x5A]), (0x1F130, [0x41]),
   (0x1F131, [0x42]), (0x1F132, [0x43]), (0x1F133, [0x44]), (0x1F134, [0x45]), (0x1F135, [0x46]),
   (0x1F136, [0x47]), (0x1F137, [0x48]), (0x1F138, [0x49]), (0x1F139, [0x4A]), (0x1F13A, [0x4B]),
   (0x1F13B, [0x4C]), (0x1F13C, [0x4D]), (0x1F13D, [0x4E]), (0x1F13E, [0x4F]), (0x1F13F, [0x50]),
   (0x1F140, [0x51]), (0x1F141, [0x52]), (0x1F142, [0x53]), (0x1F143, [0x54]), (0x1F144, [0x55]),
   (0x1F145, [0x56]), (0x1F146, [0x57]), (0x1F147, [0x58]), (0x1F148, [0x59]), (0x1F149, [0x5A]),
   (0x1F14A, [0x48, 0x56]), (0x1F14B, [0x4D, 0x56]), (0x1F14C, [0x53, 0x44]),
   (0x1F14D, [0x53, 0x53]), (0x1F14E, [0x50, 0x50, 0x56]), (0x1F14F, [0x57, 0x43]),
   (0x1F16A, [0x4D, 0x43]), (0x1F16B, [0x4D, 0x44]), (0x1F16C, [0x4D, 0x52]),
   (0x1F190, [0x44, 0x4A])]

/-- Full decomposition table: the concatenation of the chunks. -/
def nfkdTable : List (ℕ × List ℕ) :=
  nfkdTable1 ++ nfkdTable2 ++ nfkdTable3 ++ nfkdTable4 ++ nfkdTable5 ++ nfkdTable6

/-- Decomposition of one character: the decomposition from the table, or
the character itself when it is not listed.  Every table key is at least
0xE0, so characters below 0xE0 are returned unchanged without scanning
the table. -/
def nfkdChar (c : Char) : List Char :=
  if c.toNat < 0xE0 then [c]
  else
    match nfkdTable.find? (fun e => e.1 == c.toNat) with
    | some e => e.2.map Char.ofNat
    | none => [c]

/-- Python unicodedata.normalize applied to a whole string, modelled as the
concatenation of the per-character decompositions (exact for strings
without cross-character combining interactions). -/
def pyNFKD (l : List Char) : List Char :=
  (l.map nfkdChar).flatten

/-- Python str.encode ASCII with errors=ignore followed by decode: keeps
exactly the code points below 128. -/
def asciiIgnore (l : List Char) : List Char :=
  l.filter (fun c => c.toNat < 128)

/-- Membership in the regex class \w for ASCII characters (the only
characters reaching the regex in normalize_text, which runs it after the
ASCII filter): letters, digits and underscore. -/
def isWordCharB (c : Char) : Bool :=
  (0x61 ≤ c.toNat && c.toNat ≤ 0x7A) || (0x41 ≤ c.toNat && c.toNat ≤ 0x5A) ||
  (0x30 ≤ c.toNat && c.toNat ≤ 0x39) || c.toNat == 0x5F

/-- Membership in the regex class \s for ASCII characters: space, tab,
newline, vertical tab, form feed, carriage return and the separator
control characters 0x1C-0x1F (all of which Python str whitespace
includes). -/
def isSpaceCharB (c : Char) : Bool :=
  c.toNat == 0x20 || c.toNat == 0x09 || c.toNat == 0x0A || c.toNat == 0x0B ||
  c.toNat == 0x0C || c.toNat == 0x0D ||
  c.toNat == 0x1C || c.toNat == 0x1D || c.toNat == 0x1E || c.toNat == 0x1F

/-- Step re.sub applied with pattern [^\w\s] and a single-space
replacement: every character in neither class becomes a space. -/
def punctToSpace (c : Char) : Char :=
  if isWordCharB c || isSpaceCharB c then c else Char.ofNat 0x20

/-- Step re.sub applied with pattern \s+ and a single-space replacement,
written with a flag recording whether the scan is inside a whitespace run:
the first character of each run becomes one space and the rest of the run
is dropped, so every maximal run of whitespace characters collapses to one
space character. -/
def collapseWsAux : Bool → List Char → List Char
  | _, [] => []
  | inRun, c :: rest =>
    if isSpaceCharB c then
      if inRun then collapseWsAux true rest
      else Char.ofNat 0x20 :: collapseWsAux true rest
    else c :: collapseWsAux false rest

/-- Step re.sub applied with pattern \s+ and a single-space
replacement. -/
def collapseWs (l : List Char) : List Char :=
  collapseWsAux false l

/-- Python str.strip with no argument: removes leading and trailing
whitespace characters. -/
def pyStrip (l : List Char) : List Char :=
  ((l.dropWhile isSpaceCharB).reverse.dropWhile isSpaceCharB).reverse

/-- PriceComparison.normalize_text: empty (falsy) input yields the empty
string; otherwise lowercase, strip accents via NFKD plus ASCII
encode/ignore, replace characters outside \w and \s by spaces, collapse
whitespace runs and strip. -/
def normalize_text (s : String) : String :=
  if s.data = [] then ""
  else
    String.mk (pyStrip (collapseWs ((asciiIgnore (pyNFKD (s.data.map pyLower))).map punctToSpace)))

/-- Start code points of the 66 aligned runs of ten consecutive decimal
digits that make up the Unicode 14.0 category Nd: the characters the
regex class \d matches on a Python str, each with digit value equal to
its offset in its run. -/
def ndRanges : List ℕ :=
  [0x30, 0x660, 0x6F0, 0x7C0, 0x966, 0x9E6, 0xA66, 0xAE6, 0xB66, 0xBE6, 0xC66, 0xCE6, 0xD66,
   0xDE6, 0xE50, 0xED0, 0xF20, 0x1040, 0x1090, 0x17E0, 0x1810, 0x1946, 0x19D0, 0x1A80, 0x1A90,
   0x1B50, 0x1BB0, 0x1C40, 0x1C50, 0xA620, 0xA8D0, 0xA900, 0xA9D0, 0xA9F0, 0xAA50, 0xABF0,
   0xFF10, 0x104A0, 0x10D30, 0x11066, 0x110F0, 0x11136, 0x111D0, 0x112F0, 0x11450, 0x114D0,
   0x11650, 0x116C0, 0x11730, 0x118E0, 0x11950, 0x11C50, 0x11D50, 0x11DA0, 0x16A60, 0x16AC0,
   0x16B50, 0x1D7CE, 0x1D7D8, 0x1D7E2, 0x1D7EC, 0x1D7F6, 0x1E140, 0x1E2F0, 0x1E950, 0x1FBF0]

/-- Membership in the regex class \d: the Unicode decimal digits. -/
def isDigitB (c : Char) : Bool :=
  ndRanges.any (fun r => r ≤ c.toNat && c.toNat ≤ r + 9)

/-- Leftmost match of the pattern with the two alternatives digits dot
digits and plain digits, as re.findall finds it: scan to the first digit,
take the maximal digit run, and absorb a following dot plus maximal digit
run exactly when the dot is immediately followed by a digit. -/
def firstNumToken : List Char → Option (List Char)
  | [] => none
  | c :: rest =>
    if isDigitB c then
      let d1 := List.takeWhile isDigitB (c :: rest)
      let after := List.dropWhile isDigitB (c :: rest)
      match after with
      | dot :: d :: ds =>
        if dot = '.' && isDigitB d then
          some (d1 ++ '.' :: List.takeWhile isDigitB (d :: ds))
        else some d1
      | _ => some d1
    else firstNumToken rest

/-- Decimal value of one digit character: its offset in its run of ten
(0 for non-digits, which never reach it). -/
def digitVal (c : Char) : ℕ :=
  match ndRanges.find? (fun r => r ≤ c.toNat && c.toNat ≤ r + 9) with
  | some r => c.toNat - r
  | none => 0

/-- Value of a digit list read in base ten, as Python float reads the
digits of a matched token: each digit contributes its decimal value. -/
def digitsToNat (l : List Char) : ℕ :=
  l.foldl (fun acc c => 10 * acc + digitVal c) 0

/-- Python float applied to a matched numeric token (digits, optionally
dot digits), modelled exactly as a rational. -/
def tokenValue (t : List Char) : ℚ :=
  match List.dropWhile isDigitB t with
  | _ :: frac =>
      (digitsToNat (List.takeWhile isDigitB t) : ℚ) +
        (digitsToNat frac : ℚ) / (10 : ℚ) ^ frac.length
  | [] => (digitsToNat (List.takeWhile isDigitB t) : ℚ)

/-- PriceComparison.extract_numeric_price: falsy input or the sentinel
string yields None; otherwise every comma is replaced by a dot and the
first numeric token (pattern digits dot digits, or digits) is returned as
a number. -/
def extract_numeric_price (price_str : String) : Option ℚ :=
  if price_str.data = [] ∨ price_str = "Price not available" then none
  else
    (firstNumToken (price_str.data.map (fun c => if c = ',' then '.' else c))).map tokenValue

/-- Length of the longest common initial run of two character lists. -/
def commonRunLen : List Char → List Char → ℕ
  | a :: as, b :: bs => if a = b then commonRunLen as bs + 1 else 0
  | _, _ => 0

/-- Length of the longest common substring of a and b starting at offsets
i and j. -/
def extLen (a b : List Char) (i j : ℕ) : ℕ :=
  commonRunLen (a.drop i) (b.drop j)

/-- All start-offset pairs, in the scan order of difflib
SequenceMatcher.find_longest_match: first offset ascending, second offset
ascending within it. -/
def allStarts (a b : List Char) : List (ℕ × ℕ) :=
  (List.range a.length).flatMap (fun i => (List.range b.length).map (fun j => (i, j)))

/-- Length of the longest common substring of a and b. -/
def maxMatchLen (a b : List Char) : ℕ :=
  ((allStarts a b).map (fun p => extLen a b p.1 p.2)).foldr max 0

/-- Model of difflib SequenceMatcher.find_longest_match with no junk (the
similarity code passes isjunk=None, and the autojunk heuristic is inert on
the product-name lengths modelled here): the longest common substring,
ties broken by the earliest pair of offsets in scan order; the result is
the pair of start offsets together with the length, and offsets (0, 0)
with length 0 when there is no common character. -/
def findLongestMatch (a b : List Char) : ℕ × ℕ × ℕ :=
  match (allStarts a b).find? (fun p => extLen a b p.1 p.2 == maxMatchLen a b) with
  | some p => (p.1, p.2, maxMatchLen a b)
  | none => (0, 0, 0)

theorem commonRunLen_le_left : ∀ a b : List Char, commonRunLen a b ≤ a.length := by
  intro a
  induction a with
  | nil => intro b; cases b <;> simp [commonRunLen]
  | cons x xs ih =>
    intro b
    cases b with
    | nil => simp [commonRunLen]
    | cons y ys =>
      simp only [commonRunLen, List.length_cons]
      split
      · exact Nat.succ_le_succ (ih ys)
      · exact Nat.zero_le _

theorem commonRunLen_le_right : ∀ a b : List Char, commonRunLen a b ≤ b.length := by
  intro a
  induction a with
  | nil => intro b; cases b <;> simp [commonRunLen]
  | cons x xs ih =>
    intro b
    cases b with
    | nil => simp [commonRunLen]
    | cons y ys =>
      simp only [commonRunLen, List.length_cons]
      split
      · exact Nat.succ_le_succ (ih ys)
      · exact Nat.zero_le _

theorem mem_allStarts {a b : List Char} {p : ℕ × ℕ} (h : p ∈ allStarts a b) :
    p.1 < a.length ∧ p.2 < b.length := by
  simp only [allStarts, List.mem_flatMap, List.mem_map, List.mem_range] at h
  obtain ⟨i, hi, j, hj, rfl⟩ := h
  exact ⟨hi, hj⟩

/-- Bounds of the block found by findLongestMatch: the block lies inside
both lists. -/
theorem findLongestMatch_bounds (a b : List Char) :
    (findLongestMatch a b).1 + (findLongestMatch a b).2.2 ≤ a.length ∧
    (findLongestMatch a b).2.1 + (findLongestMatch a b).2.2 ≤ b.length := by
  unfold findLongestMatch
  cases hf : (allStarts a b).find? (fun p => extLen a b p.1 p.2 == maxMatchLen a b) with
  | none => simp [hf]
  | some p =>
    have hmem := List.mem_of_find?_eq_some hf
    have hpred := List.find?_some hf
    have hb := mem_allStarts hmem
    simp only [beq_iff_eq] at hpred
    simp only [hf]
    constructor
    · have h1 : extLen a b p.1 p.2 ≤ a.length - p.1 := by
        have := commonRunLen_le_left (a.drop p.1) (b.drop p.2)
        simpa [extLen] using this
      omega
    · have h2 : extLen a b p.1 p.2 ≤ b.length - p.2 := by
        have := commonRunLen_le_right (a.drop p.1) (b.drop p.2)
        simpa [extLen] using this
      omega

/-- Model of difflib SequenceMatcher.get_matching_blocks, reduced to the
total number of matched characters: the recursive divide at the longest
match that the Python implementation performs with its queue.  The
recursion is bounded by an explicit fuel; every recursive call strictly
decreases the combined length (findLongestMatch_bounds), so any fuel of at
least the combined length computes the untruncated value
(totalMatchFuel_congr below). -/
def totalMatchFuel : ℕ → List Char → List Char → ℕ
  | 0, _, _ => 0
  | fuel + 1, a, b =>
    match findLongestMatch a b with
    | (i, j, k) =>
      if k = 0 then 0
      else
        totalMatchFuel fuel (a.take i) (b.take j) + k +
          totalMatchFuel fuel (a.drop (i + k)) (b.drop (j + k))

/-- Total number of characters matched by the difflib matching-block
decomposition of a and b. -/
def totalMatch (a b : List Char) : ℕ :=
  totalMatchFuel (a.length + b.length) a b

/-- Fuel irrelevance: any fuel of at least the combined length of the two
lists computes the same value, so totalMatch is the fixpoint of the
matching-block recursion. -/
theorem totalMatchFuel_eq_zero_of_nil :
    ∀ (f : ℕ), totalMatchFuel f [] [] = 0 := by
  intro f
  cases f with
  | zero => rfl
  | succ f => rfl

theorem totalMatchFuel_congr :
    ∀ (f1 : ℕ) (a b : List Char) (f2 : ℕ), a.length + b.length ≤ f1 →
      a.length + b.length ≤ f2 → totalMatchFuel f1 a b = totalMatchFuel f2 a b := by
  intro f1
  induction f1 using Nat.strong_induction_on with
  | _ f1 ih =>
    intro a b f2 h1 h2
    cases f1 with
    | zero =>
      have ha : a = [] := List.length_eq_zero.mp (by omega)
      have hb : b = [] := List.length_eq_zero.mp (by omega)
      subst ha; subst hb
      rw [totalMatchFuel_eq_zero_of_nil, totalMatchFuel_eq_zero_of_nil]
    | succ f1 =>
      cases f2 with
      | zero =>
        have ha : a = [] := List.length_eq_zero.mp (by omega)
        have hb : b = [] := List.length_eq_zero.mp (by omega)
        subst ha; subst hb
        rw [totalMatchFuel_eq_zero_of_nil, totalMatchFuel_eq_zero_of_nil]
      | succ f2 =>
        simp only [totalMatchFuel]
        cases hr : findLongestMatch a b with
        | mk i jk =>
          cases jk with
          | mk j k =>
            by_cases hk : k = 0
            · simp [hk]
            · have hb := findLongestMatch_bounds a b
              rw [hr] at hb
              simp at hb
              simp only [hk, if_false]
              have hta : (a.take i).length = i := by
                rw [List.length_take]; omega
              have htb : (b.take j).length = j := by
                rw [List.length_take]; omega
              have hda : (a.drop (i + k)).length = a.length - (i + k) :=
                List.length_drop _ _
              have hdb : (b.drop (j + k)).length = b.length - (j + k) :=
                List.length_drop _ _
              rw [ih f1 (by omega) (a.take i) (b.take j) f2
                    (by rw [hta, htb]; omega) (by rw [hta, htb]; omega),
                ih f1 (by omega) (a.drop (i + k)) (b.drop (j + k)) f2
                    (by rw [hda, hdb]; omega) (by rw [hda, hdb]; omega)]

/-- Model of difflib SequenceMatcher.ratio: twice the matched length over
the total length, and 1 when both sequences are empty, as rational
arithmetic. -/
def smRatio (a b : List Char) : ℚ :=
  if a.length + b.length = 0 then 1
  else 2 * (totalMatch a b : ℚ) / ((a.length : ℚ) + (b.length : ℚ))

/-- PriceComparison.calculate_similarity: 0 when either raw string is
falsy, otherwise the SequenceMatcher ratio of the two normalized
strings. -/
def calculate_similarity (text1 text2 : String) : ℚ :=
  if text1.data = [] ∨ text2.data = [] then 0
  else smRatio (normalize_text text1).data (normalize_text text2).data

/-- Product record, modelling the Python product dict: the keys the class
reads (platform, name, price, rating, url, image_url) with the defaults it
uses for absent keys, plus the numeric_price key that compare_prices
attaches (absent on raw records).  An absent price key is modelled as
none, read back with the default used by the code. -/
structure Product where
  platform : String := ""
  name : String := ""
  price : Option String := none
  rating : String := ""
  url : String := ""
  image_url : String := ""
  numeric_price : Option ℚ := none
deriving DecidableEq

/-- PriceComparison.is_same_product: False when either argument is falsy
(modelled as none); otherwise compares the similarity of the two names
against the threshold, inclusively. -/
def is_same_product (product1 product2 : Option Product) (threshold : ℚ) : Bool :=
  match product1, product2 with
  | some p1, some p2 => threshold ≤ calculate_similarity p1.name p2.name
  | _, _ => false

/-- PriceComparison.find_similar_products: the loop appending every
candidate that is_same_product accepts against the source. -/
def find_similar_products (source_product : Product) (candidate_products : List Product)
    (threshold : ℚ) : List Product :=
  candidate_products.foldl
    (fun similar_products product =>
      if is_same_product (some source_product) (some product) threshold then
        similar_products ++ [product]
      else similar_products)
    []

/-- Step of compare_prices on one product: extract the numeric price from
the price field (with the default the code passes to dict.get) and attach
it, or drop the product. -/
def attachPrice (product : Product) : Option Product :=
  match extract_numeric_price (product.price.getD "Price not available") with
  | some q => some { product with numeric_price := some q }
  | none => none

/-- Sort key used by compare_prices: the attached numeric price (every
product reaching the sort has one; the default 0 is never read). -/
def priceKey (p : Product) : ℚ :=
  p.numeric_price.getD 0

/-- Stable insertion used to model the Python sorted builtin: a product
moves past exactly the products with strictly smaller key, so products
with equal keys keep their relative order. -/
def insertSorted (p : Product) : List Product → List Product
  | [] => [p]
  | q :: rest => if priceKey q < priceKey p then q :: insertSorted p rest else p :: q :: rest

/-- Model of the Python sorted builtin with the numeric-price key: a
stable ascending sort. -/
def sortByPrice : List Product → List Product
  | [] => []
  | p :: rest => insertSorted p (sortByPrice rest)

/-- PriceComparison.compare_prices: keep the products whose price parses,
attach the numeric price, and stable-sort ascending by it. -/
def compare_prices (products : List Product) : List Product :=
  sortByPrice (products.filterMap attachPrice)

/-- One platform collaborator: the search_product operation of a scraper,
returning a result list or raising (modelled with Except). -/
def Scraper : Type := String → Except String (List Product)

/-- Loop body of search_across_platforms for one (platform, scraper)
entry: skip the source platform, call the scraper, append the similar
results on success (with the default threshold 0.7) and leave the
accumulator unchanged when the scraper raises (the except branch that
only logs). -/
def searchStep (source_product : Product) (acc : List Product) (entry : String × Scraper) :
    List Product :=
  if entry.1 = source_product.platform then acc
  else
    match entry.2 source_product.name with
    | Except.ok search_results =>
        acc ++ find_similar_products source_product search_results (7 / 10)
    | Except.error _ => acc

/-- PriceComparison.search_across_platforms: start from the source
product, return immediately on an empty (falsy) name, otherwise fold the
per-platform step over the scraper entries in mapping order. -/
def search_across_platforms (source_product : Product)
    (scrapers : List (String × Scraper)) : List Product :=
  if source_product.name = "" then [source_product]
  else scrapers.foldl (searchStep source_product) [source_product]

section Claims

theorem find_similar_foldl (source : Product) (t : ℚ) :
    ∀ (l acc : List Product),
      l.foldl
          (fun similar_products product =>
            if is_same_product (some source) (some product) t then similar_products ++ [product]
            else similar_products) acc
        = acc ++ l.filter (fun product => is_same_product (some source) (some product) t) := by
  intro l
  induction l with
  | nil => simp
  | cons p rest ih =>
    intro acc
    simp only [List.foldl_cons, List.filter_cons]
    by_cases hp : is_same_product (some source) (some p) t
    · simp [hp, ih]
    · simp [hp, ih]

/-- C7: find_similar_products returns exactly the candidates for which
is_same_product holds against the source at the given threshold (it is the
literal filter of the candidate list, an inclusive comparison), in input
order, a sublist of the input, and therefore without deduplicating
repeated candidates (the filter preserves multiplicities). -/
theorem find_similar_products_eq_filter (source : Product) (candidates : List Product) (t : ℚ) :
    find_similar_products source candidates t
        = candidates.filter (fun c => is_same_product (some source) (some c) t) ∧
      (find_similar_products source candidates t).Sublist candidates := by
  constructor
  · simpa [find_similar_products] using find_similar_foldl source t candidates []
  · have h : find_similar_products source candidates t
        = candidates.filter (fun c => is_same_product (some source) (some c) t) := by
      simpa [find_similar_products] using find_similar_foldl source t candidates []
    rw [h]
    exact List.filter_sublist candidates

theorem foldl_searchStep_head? (source : Product) :
    ∀ (l : List (String × Scraper)) (acc : List Product), acc ≠ [] →
      (l.foldl (searchStep source) acc).head? = acc.head? := by
  intro l
  induction l with
  | nil => intro acc _; rfl
  | cons entry rest ih =>
    intro acc hacc
    simp only [List.foldl_cons]
    have hstep : (searchStep source acc entry).head? = acc.head? ∧ searchStep source acc entry ≠ [] := by
      unfold searchStep
      split
      · exact ⟨rfl, hacc⟩
      · cases h : entry.2 source.name with
        | ok results =>
          refine ⟨?_, by simp [hacc]⟩
          cases acc with
          | nil => exact absurd rfl hacc
          | cons x xs => simp
        | error e => exact ⟨rfl, hacc⟩
    rw [ih _ hstep.2, hstep.1]

/-- C6: search_across_platforms always puts the source product first, and
with an empty source name it returns exactly the singleton source list,
for every collaborator mapping whatsoever (the scrapers are never
consulted on the early return). -/
theorem search_source_first (source : Product) (scrapers : List (String × Scraper)) :
    (search_across_platforms source scrapers).head? = some source ∧
      (source.name = "" → search_across_platforms source scrapers = [source]) := by
  unfold search_across_platforms
  by_cases hname : source.name = ""
  · simp [hname]
  · simp only [hname, if_false]
    refine ⟨by rw [foldl_searchStep_head? source scrapers [source] (by simp)]; rfl, ?_⟩
    intro h
    exact h.elim

/-- Source product with an empty name, for the C6 witness. -/
def exNoName : Product := { platform := "amazon" }

/-- Failing collaborator used in the witnesses. -/
def exFail : Scraper := fun _ => Except.error "network error"

theorem search_source_first_witness :
    search_across_platforms exNoName [("noon", exFail)] = [exNoName] :=
  (search_source_first exNoName [("noon", exFail)]).2 rfl

theorem mem_foldl_searchStep_of_mem (source : Product) :
    ∀ (l : List (String × Scraper)) (acc : List Product) (c : Product),
      c ∈ acc → c ∈ l.foldl (searchStep source) acc := by
  intro l
  induction l with
  | nil => intro acc c hc; exact hc
  | cons entry rest ih =>
    intro acc c hc
    simp only [List.foldl_cons]
    refine ih _ c ?_
    unfold searchStep
    split
    · exact hc
    · cases h : entry.2 source.name with
      | ok results => exact List.mem_append_left _ hc
      | error e => exact hc

theorem mem_foldl_searchStep_of_entry (source : Product) :
    ∀ (l : List (String × Scraper)) (acc : List Product) (pl : String) (scr : Scraper)
      (results : List Product) (c : Product),
      (pl, scr) ∈ l → pl ≠ source.platform → scr source.name = Except.ok results →
      c ∈ find_similar_products source results (7 / 10) →
      c ∈ l.foldl (searchStep source) acc := by
  intro l
  induction l with
  | nil => intro acc pl scr results c h; exact absurd h (List.not_mem_nil _)
  | cons entry rest ih =>
    intro acc pl scr results c hmem hpl hok hc
    rcases List.mem_cons.mp hmem with heq | htail
    · subst heq
      simp only [List.foldl_cons]
      refine mem_foldl_searchStep_of_mem source rest _ c ?_
      unfold searchStep
      simp only [hpl, if_false, hok]
      exact List.mem_append_right _ hc
    · simp only [List.foldl_cons]
      exact ih _ pl scr results c htail hpl hok hc

/-- C1: a collaborator that raises on search contributes nothing and
changes nothing: deleting the failing entry from the mapping leaves the
aggregate result unchanged (so the exception is not propagated and the
failing platform contributes zero candidates), and each matched candidate
of every successfully answering non-source platform is still a member of
the aggregate. -/
theorem search_isolates_failures (source : Product) (pre post : List (String × Scraper))
    (plf : String) (f : Scraper) (e : String) (hf : f source.name = Except.error e) :
    search_across_platforms source (pre ++ (plf, f) :: post)
        = search_across_platforms source (pre ++ post) ∧
      (∀ (pl : String) (scr : Scraper) (results : List Product) (c : Product),
        (pl, scr) ∈ pre ++ (plf, f) :: post → pl ≠ source.platform →
        scr source.name = Except.ok results → source.name ≠ "" →
        c ∈ find_similar_products source results (7 / 10) →
        c ∈ search_across_platforms source (pre ++ (plf, f) :: post)) := by
  constructor
  · unfold search_across_platforms
    by_cases hname : source.name = ""
    · simp [hname]
    · simp only [hname, if_false, List.foldl_append, List.foldl_cons]
      have hstep : searchStep source (pre.foldl (searchStep source) [source]) (plf, f)
          = pre.foldl (searchStep source) [source] := by
        unfold searchStep
        split
        · rfl
        · simp only [hf]
      rw [hstep]
  · intro pl scr results c hmem hpl hok hname hc
    unfold search_across_platforms
    simp only [hname, if_false]
    exact mem_foldl_searchStep_of_entry source _ _ pl scr results c hmem hpl hok hc

/-- Source product used in the C1 witness. -/
def exSource : Product := { platform := "amazon", name := "ab", price := some "$25.00" }

/-- Matching candidate returned by the successful collaborator in the C1
witness. -/
def exCand : Product := { platform := "noon", name := "ab", price := some "90" }

/-- Succeeding collaborator used in the C1 witness. -/
def exNoon : Scraper := fun _ => Except.ok [exCand]

set_option maxRecDepth 4000 in
theorem search_isolates_failures_witness :
    search_across_platforms exSource [("noon", exNoon), ("temu", exFail)]
        = search_across_platforms exSource [("noon", exNoon)] ∧
      exCand ∈ search_across_platforms exSource [("noon", exNoon), ("temu", exFail)] := by
  have h := search_isolates_failures exSource [("noon", exNoon)] [] "temu" exFail
    "network error" rfl
  exact ⟨h.1, h.2 "noon" exNoon [exCand] exCand (by simp) (by decide) rfl (by decide)
    (by with_unfolding_all decide)⟩

theorem mem_insertSorted (p q : Product) :
    ∀ l : List Product, q ∈ insertSorted p l ↔ q = p ∨ q ∈ l := by
  intro l
  induction l with
  | nil => simp [insertSorted]
  | cons r rest ih =>
    simp only [insertSorted]
    split
    · simp only [List.mem_cons, ih]
      tauto
    · simp only [List.mem_cons]

theorem mem_sortByPrice (q : Product) :
    ∀ l : List Product, q ∈ sortByPrice l ↔ q ∈ l := by
  intro l
  induction l with
  | nil => simp [sortByPrice]
  | cons p rest ih =>
    simp only [sortByPrice, mem_insertSorted, List.mem_cons, ih]

theorem pairwise_insertSorted (p : Product) :
    ∀ l : List Product, List.Pairwise (fun x y => priceKey x ≤ priceKey y) l →
      List.Pairwise (fun x y => priceKey x ≤ priceKey y) (insertSorted p l) := by
  intro l
  induction l with
  | nil => intro _; simp [insertSorted]
  | cons q rest ih =>
    intro hl
    rw [List.pairwise_cons] at hl
    simp only [insertSorted]
    split
    · rename_i hlt
      rw [List.pairwise_cons]
      refine ⟨?_, ih hl.2⟩
      intro x hx
      rcases (mem_insertSorted p x rest).mp hx with rfl | hmem
      · exact le_of_lt hlt
      · exact hl.1 x hmem
    · rename_i hge
      rw [List.pairwise_cons]
      refine ⟨?_, List.pairwise_cons.mpr hl⟩
      intro x hx
      rcases List.mem_cons.mp hx with rfl | hmem
      · exact le_of_not_lt hge
      · exact le_trans (le_of_not_lt hge) (hl.1 x hmem)

theorem pairwise_sortByPrice :
    ∀ l : List Product, List.Pairwise (fun x y => priceKey x ≤ priceKey y) (sortByPrice l) := by
  intro l
  induction l with
  | nil => simp [sortByPrice]
  | cons p rest ih => exact pairwise_insertSorted p _ ih

theorem filter_insertSorted (p : Product) (k : ℚ) :
    ∀ l : List Product,
      (insertSorted p l).filter (fun x => decide (priceKey x = k))
        = if priceKey p = k then p :: l.filter (fun x => decide (priceKey x = k))
          else l.filter (fun x => decide (priceKey x = k)) := by
  intro l
  induction l with
  | nil =>
    simp only [insertSorted, List.filter]
    split <;> simp_all
  | cons q rest ih =>
    simp only [insertSorted]
    by_cases hq : priceKey q < priceKey p
    · rw [if_pos hq]
      by_cases hpk : priceKey p = k
      · have hqk : ¬ priceKey q = k := by rw [← hpk]; exact ne_of_lt hq
        simp only [List.filter_cons, ih, if_pos hpk]
        simp [hqk]
      · simp only [List.filter_cons, ih, if_neg hpk]
    · rw [if_neg hq]
      by_cases hpk : priceKey p = k
      · simp only [List.filter_cons, if_pos hpk]
        simp [hpk]
      · simp only [List.filter_cons, if_neg hpk]
        simp [hpk]

theorem filter_sortByPrice (k : ℚ) :
    ∀ l : List Product,
      (sortByPrice l).filter (fun x => decide (priceKey x = k))
        = l.filter (fun x => decide (priceKey x = k)) := by
  intro l
  induction l with
  | nil => simp [sortByPrice]
  | cons p rest ih =>
    simp only [sortByPrice, filter_insertSorted, ih, List.filter_cons]
    split <;> simp_all

theorem perm_insertSorted (p : Product) :
    ∀ l : List Product, List.Perm (insertSorted p l) (p :: l) := by
  intro l
  induction l with
  | nil => simp [insertSorted]
  | cons q rest ih =>
    simp only [insertSorted]
    split
    · exact List.Perm.trans (List.Perm.cons q ih) (List.Perm.swap p q rest)
    · exact List.Perm.refl _

theorem perm_sortByPrice :
    ∀ l : List Product, List.Perm (sortByPrice l) l := by
  intro l
  induction l with
  | nil => exact List.Perm.refl _
  | cons p rest ih =>
    exact List.Perm.trans (perm_insertSorted p (sortByPrice rest)) (List.Perm.cons p ih)

/-- First product of the documented stability example: price 10, earliest. -/
def exTen1 : Product := { name := "first", price := some "10" }

/-- Second product of the documented stability example: price 5. -/
def exFive : Product := { name := "second", price := some "5" }

/-- Third product of the documented stability example: price 10, latest. -/
def exTen2 : Product := { name := "third", price := some "10" }

/-- C2: compare_prices keeps exactly the products whose price text parses
(a permutation of the price-attached filterMap of the input), sorts them
ascending by the extracted numeric price, is stable (for every key, the
products with that extracted price appear in input order), returns [] on
empty or all-unparseable input, and on the documented example with prices
10, 5, 10 returns the 5 first and the two 10s in input order. -/
theorem compare_prices_sorted_stable (products : List Product) :
    List.Pairwise (fun x y => priceKey x ≤ priceKey y) (compare_prices products) ∧
      List.Perm (compare_prices products) (products.filterMap attachPrice) ∧
      (∀ k : ℚ, (compare_prices products).filter (fun x => decide (priceKey x = k))
          = (products.filterMap attachPrice).filter (fun x => decide (priceKey x = k))) ∧
      compare_prices [] = [] ∧
      ((∀ p ∈ products, extract_numeric_price (p.price.getD "Price not available") = none) →
        compare_prices products = []) ∧
      compare_prices [exTen1, exFive, exTen2]
        = [{ exFive with numeric_price := some 5 },
           { exTen1 with numeric_price := some 10 },
           { exTen2 with numeric_price := some 10 }] := by
  refine ⟨pairwise_sortByPrice _, perm_sortByPrice _,
    fun k => filter_sortByPrice k _, rfl, ?_, by with_unfolding_all decide⟩
  intro hnone
  have hfm : products.filterMap attachPrice = [] := by
    rw [List.filterMap_eq_nil]
    intro p hp
    unfold attachPrice
    rw [hnone p hp]
  unfold compare_prices
  rw [hfm]
  rfl

/-- Product with an unparseable price, for the C2 witness. -/
def exNoPrice : Product := { name := "broken", price := some "call us" }

theorem compare_prices_sorted_stable_witness :
    compare_prices [exNoPrice] = [] :=
  (compare_prices_sorted_stable [exNoPrice]).2.2.2.2.1 (by
    intro p hp
    rw [List.mem_singleton] at hp
    subst hp
    with_unfolding_all decide)

/-- C9: compare_prices does not corrupt the records it was given: every
product in its result agrees with some input product on every field other
than the attached numeric_price. -/
theorem compare_prices_preserves_fields (products : List Product) (q : Product)
    (hq : q ∈ compare_prices products) :
    ∃ p ∈ products, q.platform = p.platform ∧ q.name = p.name ∧ q.price = p.price ∧
      q.rating = p.rating ∧ q.url = p.url ∧ q.image_url = p.image_url := by
  unfold compare_prices at hq
  rw [mem_sortByPrice] at hq
  rcases List.mem_filterMap.mp hq with ⟨p, hp, hap⟩
  refine ⟨p, hp, ?_⟩
  unfold attachPrice at hap
  cases hx : extract_numeric_price (p.price.getD "Price not available") with
  | none => rw [hx] at hap; exact absurd hap (by simp)
  | some v =>
    rw [hx] at hap
    simp only [Option.some.injEq] at hap
    subst hap
    simp

theorem compare_prices_preserves_fields_witness :
    ∃ p ∈ [exTen1], { exTen1 with numeric_price := some 10 }.platform = p.platform ∧
      { exTen1 with numeric_price := some 10 }.name = p.name ∧
      { exTen1 with numeric_price := some 10 }.price = p.price ∧
      { exTen1 with numeric_price := some 10 }.rating = p.rating ∧
      { exTen1 with numeric_price := some 10 }.url = p.url ∧
      { exTen1 with numeric_price := some 10 }.image_url = p.image_url :=
  compare_prices_preserves_fields [exTen1] { exTen1 with numeric_price := some 10 }
    (by with_unfolding_all decide)

theorem firstNumToken_eq_none :
    ∀ l : List Char, (∀ c ∈ l, isDigitB c = false) → firstNumToken l = none := by
  intro l
  induction l with
  | nil => intro _; rfl
  | cons c rest ih =>
    intro h
    have hc : isDigitB c = false := h c (List.mem_cons_self c rest)
    simp only [firstNumToken, hc, Bool.false_eq_true, if_false]
    exact ih (fun d hd => h d (List.mem_cons_of_mem c hd))

theorem extract_dollar_eval : extract_numeric_price "$99.99" = some (9999 / 100) := by
  rw [show extract_numeric_price "$99.99"
      = some ((99 : ℚ) + (99 : ℚ) / (10 : ℚ) ^ 2) from rfl]
  norm_num

theorem extract_comma_eval : extract_numeric_price "1,234" = some (617 / 500) := by
  rw [show extract_numeric_price "1,234"
      = some ((1 : ℚ) + (234 : ℚ) / (10 : ℚ) ^ 3) from rfl]
  norm_num

/-- C3: extract_numeric_price substitutes commas by decimal points and
returns the first numeric token as a number: 99.99 for the dollar-price
example, 1.234 for the comma-thousands example (the documented
comma-as-decimal reading), None for the sentinel Price not available and
for empty input, and None, never zero and never a failure, for any input
without a single decimal digit. -/
theorem extract_price_spec :
    extract_numeric_price "$99.99" = some (9999 / 100) ∧
      extract_numeric_price "1,234" = some (617 / 500) ∧
      extract_numeric_price "Price not available" = none ∧
      extract_numeric_price "" = none ∧
      (∀ s : String, (∀ c ∈ s.data, isDigitB c = false) → extract_numeric_price s = none) := by
  refine ⟨extract_dollar_eval, extract_comma_eval, rfl, rfl, ?_⟩
  intro s hs
  unfold extract_numeric_price
  split
  · rfl
  · rw [firstNumToken_eq_none]
    · rfl
    · intro c hc
      rcases List.mem_map.mp hc with ⟨d, hd, rfl⟩
      have hdd := hs d hd
      by_cases hcomma : d = ','
      · simp only [hcomma]
        decide
      · simpa [hcomma] using hdd

theorem extract_price_spec_witness : extract_numeric_price "No price!" = none :=
  extract_price_spec.2.2.2.2 "No price!" (by decide)

theorem digitsToNat_cast_nonneg (l : List Char) : (0 : ℚ) ≤ (digitsToNat l : ℚ) := by
  exact_mod_cast Nat.zero_le _

theorem tokenValue_nonneg (t : List Char) : 0 ≤ tokenValue t := by
  unfold tokenValue
  split
  · have h1 : (0 : ℚ) ≤ (digitsToNat (List.takeWhile isDigitB t) : ℚ) :=
      digitsToNat_cast_nonneg _
    rename_i frac heq
    have h2 : (0 : ℚ) ≤ (digitsToNat frac : ℚ) / (10 : ℚ) ^ frac.length := by
      apply div_nonneg (digitsToNat_cast_nonneg _)
      positivity
    exact add_nonneg h1 h2
  · exact digitsToNat_cast_nonneg _

/-- C10: every price the extractor returns is non-negative (the numeric
scan only matches unsigned digit runs), and a leading minus sign is
dropped: the string -5 extracts 5. -/
theorem extract_price_nonneg :
    (∀ (s : String) (q : ℚ), extract_numeric_price s = some q → 0 ≤ q) ∧
      extract_numeric_price "-5" = some 5 := by
  constructor
  · intro s q hq
    unfold extract_numeric_price at hq
    split at hq
    · exact absurd hq (by simp)
    · rcases Option.map_eq_some'.mp hq with ⟨t, _, rfl⟩
      exact tokenValue_nonneg t
  · rw [show extract_numeric_price "-5" = some ((5 : ℚ)) from rfl]

theorem extract_price_nonneg_witness :
    extract_numeric_price "-5" = some 5 ∧ (0 : ℚ) ≤ 5 :=
  ⟨extract_price_nonneg.2, extract_price_nonneg.1 "-5" 5 extract_price_nonneg.2⟩

theorem le_foldr_max (l : List ℕ) (x : ℕ) (hx : x ∈ l) : x ≤ l.foldr max 0 := by
  induction l with
  | nil => exact absurd hx (List.not_mem_nil x)
  | cons y rest ih =>
    rcases List.mem_cons.mp hx with rfl | hmem
    · exact le_max_left _ _
    · exact le_trans (ih hmem) (le_max_right _ _)

theorem foldr_max_le (l : List ℕ) (m : ℕ) (h : ∀ x ∈ l, x ≤ m) : l.foldr max 0 ≤ m := by
  induction l with
  | nil => exact Nat.zero_le m
  | cons y rest ih =>
    simp only [List.foldr_cons]
    exact max_le (h y (List.mem_cons_self y rest)) (ih fun x hx => h x (List.mem_cons_of_mem y hx))

theorem extLen_le_left (a b : List Char) (i j : ℕ) : extLen a b i j ≤ a.length := by
  refine le_trans (commonRunLen_le_left _ _) ?_
  rw [List.length_drop]
  omega

theorem extLen_le_right (a b : List Char) (i j : ℕ) : extLen a b i j ≤ b.length := by
  refine le_trans (commonRunLen_le_right _ _) ?_
  rw [List.length_drop]
  omega

theorem maxMatchLen_le (a b : List Char) :
    maxMatchLen a b ≤ a.length ∧ maxMatchLen a b ≤ b.length := by
  constructor
  · refine foldr_max_le _ _ ?_
    intro x hx
    rcases List.mem_map.mp hx with ⟨p, _, rfl⟩
    exact extLen_le_left a b p.1 p.2
  · refine foldr_max_le _ _ ?_
    intro x hx
    rcases List.mem_map.mp hx with ⟨p, _, rfl⟩
    exact extLen_le_right a b p.1 p.2

theorem totalMatchFuel_le :
    ∀ (f : ℕ) (a b : List Char),
      totalMatchFuel f a b ≤ a.length ∧ totalMatchFuel f a b ≤ b.length := by
  intro f
  induction f with
  | zero => intro a b; exact ⟨Nat.zero_le _, Nat.zero_le _⟩
  | succ f ih =>
    intro a b
    simp only [totalMatchFuel]
    cases hr : findLongestMatch a b with
    | mk i jk =>
      cases jk with
      | mk j k =>
        by_cases hk : k = 0
        · simp [hk]
        · have hb := findLongestMatch_bounds a b
          rw [hr] at hb
          simp at hb
          simp only [hk, if_false]
          have h1 := ih (a.take i) (b.take j)
          have h2 := ih (a.drop (i + k)) (b.drop (j + k))
          rw [List.length_take, List.length_take] at h1
          rw [List.length_drop, List.length_drop] at h2
          constructor <;> omega

/-- Total matched length never exceeds either input length. -/
theorem totalMatch_le (a b : List Char) :
    totalMatch a b ≤ a.length ∧ totalMatch a b ≤ b.length :=
  totalMatchFuel_le _ a b

theorem smRatio_nonneg (a b : List Char) : 0 ≤ smRatio a b := by
  unfold smRatio
  split
  · exact zero_le_one
  · apply div_nonneg
    · positivity
    · positivity

theorem smRatio_le_one (a b : List Char) : smRatio a b ≤ 1 := by
  unfold smRatio
  split
  · exact le_refl 1
  · rename_i hne
    have hpos : (0 : ℚ) < (a.length : ℚ) + (b.length : ℚ) := by
      have h0 : 0 < a.length + b.length := Nat.pos_of_ne_zero hne
      exact_mod_cast h0
    rw [div_le_one hpos]
    have h := totalMatch_le a b
    have h1 : (totalMatch a b : ℚ) ≤ (a.length : ℚ) := by exact_mod_cast h.1
    have h2 : (totalMatch a b : ℚ) ≤ (b.length : ℚ) := by exact_mod_cast h.2
    linarith

theorem commonRunLen_self : ∀ x : List Char, commonRunLen x x = x.length := by
  intro x
  induction x with
  | nil => rfl
  | cons c rest ih => simp [commonRunLen, ih]

theorem maxMatchLen_self (x : List Char) (hx : x ≠ []) : maxMatchLen x x = x.length := by
  refine le_antisymm (maxMatchLen_le x x).1 ?_
  have hmem : (0, 0) ∈ allStarts x x := by
    simp only [allStarts, List.mem_flatMap, List.mem_map, List.mem_range]
    exact ⟨0, List.length_pos.mpr hx, 0, List.length_pos.mpr hx, rfl⟩
  have hext : extLen x x 0 0 = x.length := by
    simp [extLen, commonRunLen_self]
  calc x.length = extLen x x 0 0 := hext.symm
    _ ≤ maxMatchLen x x :=
      le_foldr_max _ _ (List.mem_map.mpr ⟨(0, 0), hmem, rfl⟩)

theorem allStarts_self_cons (x : List Char) (hx : x ≠ []) :
    ∃ L, allStarts x x = (0, 0) :: L := by
  obtain ⟨n, hn⟩ : ∃ n, x.length = n + 1 := by
    cases hl : x.length with
    | zero => exact absurd (List.length_eq_zero.mp hl) hx
    | succ n => exact ⟨n, rfl⟩
  unfold allStarts
  rw [hn, List.range_succ_eq_map]
  simp only [List.flatMap_cons, List.map_cons]
  exact ⟨_, rfl⟩

theorem findLongestMatch_self (x : List Char) (hx : x ≠ []) :
    findLongestMatch x x = (0, 0, x.length) := by
  obtain ⟨L, hL⟩ := allStarts_self_cons x hx
  have hpred : (fun p : ℕ × ℕ => extLen x x p.1 p.2 == maxMatchLen x x) (0, 0) = true := by
    simp only [beq_iff_eq]
    rw [maxMatchLen_self x hx]
    simp [extLen, commonRunLen_self]
  unfold findLongestMatch
  rw [hL, show List.find? (fun p : ℕ × ℕ => extLen x x p.1 p.2 == maxMatchLen x x)
      ((0, 0) :: L) = some (0, 0) from List.find?_cons_of_pos L hpred]
  simp [maxMatchLen_self x hx]

theorem totalMatch_self (x : List Char) : totalMatch x x = x.length := by
  by_cases hx : x = []
  · subst hx; rfl
  · obtain ⟨n, hn⟩ : ∃ n, x.length = n + 1 := by
      cases hl : x.length with
      | zero => exact absurd (List.length_eq_zero.mp hl) hx
      | succ n => exact ⟨n, rfl⟩
    unfold totalMatch
    rw [hn]
    have hfuel : n + 1 + (n + 1) = (n + 1 + n) + 1 := by omega
    rw [hfuel]
    simp only [totalMatchFuel, findLongestMatch_self x hx, hn]
    simp only [Nat.succ_ne_zero, if_false, List.take_zero]
    have hdrop : x.drop (0 + (n + 1)) = [] := by
      apply List.drop_eq_nil_of_le
      omega
    rw [hdrop]
    simp [totalMatchFuel_eq_zero_of_nil]

theorem smRatio_self (x : List Char) : smRatio x x = 1 := by
  unfold smRatio
  split
  · rfl
  · rename_i hne
    rw [totalMatch_self]
    have hpos : (0 : ℚ) < (x.length : ℚ) + (x.length : ℚ) := by
      have : x.length ≠ 0 := by omega
      have hq : (0 : ℚ) < (x.length : ℚ) := by exact_mod_cast Nat.pos_of_ne_zero this
      linarith
    rw [div_eq_one_iff_eq (ne_of_gt hpos)]
    ring

/-- C8: the similarity score always lies in the unit interval, an empty
raw name on either side scores 0 (the emptiness test runs before
normalization), and every non-empty string scores 1.0 against itself,
including strings whose normalized form is empty (the SequenceMatcher
ratio of two empty sequences is defined as 1). -/
theorem similarity_bounds :
    (∀ a b : String, 0 ≤ calculate_similarity a b ∧ calculate_similarity a b ≤ 1) ∧
      (∀ b : String, calculate_similarity "" b = 0 ∧ calculate_similarity b "" = 0) ∧
      (∀ a : String, a ≠ "" → calculate_similarity a a = 1) := by
  refine ⟨?_, ?_, ?_⟩
  · intro a b
    unfold calculate_similarity
    split
    · exact ⟨le_refl 0, zero_le_one⟩
    · exact ⟨smRatio_nonneg _ _, smRatio_le_one _ _⟩
  · intro b
    constructor
    · unfold calculate_similarity
      rw [if_pos (Or.inl rfl)]
    · unfold calculate_similarity
      rw [if_pos (Or.inr rfl)]
  · intro a ha
    unfold calculate_similarity
    rw [if_neg, smRatio_self]
    rintro (h | h) <;>
      exact ha (by cases a; simp_all)

theorem similarity_bounds_witness : calculate_similarity "!" "!" = 1 :=
  similarity_bounds.2.2 "!" (by decide)

/-- Product named abcb, exhibiting the matcher asymmetry. -/
def exAbcb : Product := { name := "abcb" }

/-- Product named bcab, exhibiting the matcher asymmetry. -/
def exBcab : Product := { name := "bcab" }

/-- C4 counterexample: the SequenceMatcher-based score is order
dependent.  On the pair abcb and bcab the score is 1/2 one way and 3/4
the other way (the greedy longest-match tie-break differs after
swapping), so with the default threshold 0.7 the two products compare as
not-same in one order and same in the other. -/
theorem similarity_not_symmetric :
    calculate_similarity "abcb" "bcab" ≠ calculate_similarity "bcab" "abcb" ∧
      is_same_product (some exAbcb) (some exBcab) (7 / 10)
        ≠ is_same_product (some exBcab) (some exAbcb) (7 / 10) := by
  constructor
  · with_unfolding_all decide
  · with_unfolding_all decide

/-- C4 amended: the score is symmetric whenever the two raw names have
equal normalized forms (in particular on identical names), and the falsy
check of is_same_product is symmetric; in general, swapping the arguments
can change the score and the match decision, as the counterexample
records. -/
theorem similarity_symmetric_on_equal_normalization :
    (∀ a b : String, normalize_text a = normalize_text b →
        calculate_similarity a b = calculate_similarity b a) ∧
      (∀ (p1 p2 : Product) (t : ℚ), normalize_text p1.name = normalize_text p2.name →
        is_same_product (some p1) (some p2) t = is_same_product (some p2) (some p1) t) ∧
      (∀ (p : Option Product) (t : ℚ),
        is_same_product none p t = is_same_product p none t) := by
  have hsim : ∀ a b : String, normalize_text a = normalize_text b →
      calculate_similarity a b = calculate_similarity b a := by
    intro a b h
    unfold calculate_similarity
    by_cases ha : a.data = []
    · by_cases hb : b.data = [] <;> simp [ha, hb]
    · by_cases hb : b.data = []
      · simp [ha, hb]
      · rw [if_neg (by tauto), if_neg (by tauto), h]
  refine ⟨hsim, ?_, ?_⟩
  · intro p1 p2 t h
    show decide (t ≤ calculate_similarity p1.name p2.name)
        = decide (t ≤ calculate_similarity p2.name p1.name)
    rw [hsim p1.name p2.name h]
  · intro p t
    cases p <;> rfl

theorem similarity_symmetric_on_equal_normalization_witness :
    calculate_similarity "Café!!" "cafe" = calculate_similarity "cafe" "Café!!" :=
  similarity_symmetric_on_equal_normalization.1 "Café!!" "cafe" rfl

/-- Characters that can appear in the output of normalize_text: the
space, lowercase ASCII letters, ASCII digits and the underscore. -/
def canonChar (c : Char) : Prop :=
  c.toNat = 0x20 ∨ (0x61 ≤ c.toNat ∧ c.toNat ≤ 0x7A) ∨
    (0x30 ≤ c.toNat ∧ c.toNat ≤ 0x39) ∨ c.toNat = 0x5F

theorem char_toNat_ofNat {n : ℕ} (h : n.isValidChar) : (Char.ofNat n).toNat = n := by
  unfold Char.ofNat
  rw [dif_pos h]
  rfl

theorem pyLower_canon {c : Char} (hc : canonChar c) : pyLower c = c := by
  unfold canonChar at hc
  unfold pyLower
  rw [if_neg (by omega)]

set_option maxRecDepth 8192 in
theorem nfkdTable_keys : ∀ e ∈ nfkdTable, 0xE0 ≤ e.1 := by decide

theorem nfkdChar_of_lt {c : Char} (h : c.toNat < 0xE0) : nfkdChar c = [c] := by
  unfold nfkdChar
  rw [if_pos h]

theorem nfkdChar_canon {c : Char} (hc : canonChar c) : nfkdChar c = [c] := by
  refine nfkdChar_of_lt ?_
  unfold canonChar at hc
  omega

theorem isWordCharB_iff (c : Char) : isWordCharB c = true ↔
    ((0x61 ≤ c.toNat ∧ c.toNat ≤ 0x7A) ∨ (0x41 ≤ c.toNat ∧ c.toNat ≤ 0x5A) ∨
      (0x30 ≤ c.toNat ∧ c.toNat ≤ 0x39) ∨ c.toNat = 0x5F) := by
  unfold isWordCharB
  simp only [Bool.or_eq_true, Bool.and_eq_true, decide_eq_true_eq, beq_iff_eq]
  tauto

theorem isSpaceCharB_iff (c : Char) : isSpaceCharB c = true ↔
    (c.toNat = 0x20 ∨ c.toNat = 0x09 ∨ c.toNat = 0x0A ∨ c.toNat = 0x0B ∨
      c.toNat = 0x0C ∨ c.toNat = 0x0D ∨
      c.toNat = 0x1C ∨ c.toNat = 0x1D ∨ c.toNat = 0x1E ∨ c.toNat = 0x1F) := by
  unfold isSpaceCharB
  simp only [Bool.or_eq_true, beq_iff_eq]
  tauto

theorem punctToSpace_canon {c : Char} (hc : canonChar c) : punctToSpace c = c := by
  unfold canonChar at hc
  unfold punctToSpace
  rw [if_pos]
  rw [Bool.or_eq_true, isWordCharB_iff, isSpaceCharB_iff]
  omega

theorem canonChar_lt {c : Char} (hc : canonChar c) : c.toNat < 128 := by
  unfold canonChar at hc
  omega

theorem canonChar_space {c : Char} (hc : canonChar c) (hs : isSpaceCharB c = true) :
    c = Char.ofNat 0x20 := by
  rw [isSpaceCharB_iff] at hs
  unfold canonChar at hc
  have ht : c.toNat = 0x20 := by omega
  have h2 := Char.ofNat_toNat c
  rw [ht] at h2
  exact h2.symm

theorem map_pyLower_canon {l : List Char} (h : ∀ c ∈ l, canonChar c) :
    l.map pyLower = l := by
  induction l with
  | nil => rfl
  | cons c rest ih =>
    simp only [List.map_cons]
    rw [pyLower_canon (h c (List.mem_cons_self c rest)),
      ih (fun d hd => h d (List.mem_cons_of_mem c hd))]

theorem pyNFKD_canon {l : List Char} (h : ∀ c ∈ l, canonChar c) : pyNFKD l = l := by
  induction l with
  | nil => rfl
  | cons c rest ih =>
    unfold pyNFKD
    simp only [List.map_cons, List.flatten_cons]
    rw [nfkdChar_canon (h c (List.mem_cons_self c rest))]
    have := ih (fun d hd => h d (List.mem_cons_of_mem c hd))
    unfold pyNFKD at this
    rw [this]
    rfl

theorem asciiIgnore_canon {l : List Char} (h : ∀ c ∈ l, canonChar c) : asciiIgnore l = l := by
  unfold asciiIgnore
  rw [List.filter_eq_self]
  intro c hc
  simpa using canonChar_lt (h c hc)

theorem map_punct_canon {l : List Char} (h : ∀ c ∈ l, canonChar c) :
    l.map punctToSpace = l := by
  induction l with
  | nil => rfl
  | cons c rest ih =>
    simp only [List.map_cons]
    rw [punctToSpace_canon (h c (List.mem_cons_self c rest)),
      ih (fun d hd => h d (List.mem_cons_of_mem c hd))]

/-- Output lists in which no two whitespace characters are adjacent. -/
def NoTwoSpaces (l : List Char) : Prop :=
  List.Chain' (fun a b => isSpaceCharB a = false ∨ isSpaceCharB b = false) l

theorem collapseWsAux_head_true :
    ∀ (l : List Char) (c : Char), (collapseWsAux true l).head? = some c →
      isSpaceCharB c = false := by
  intro l
  induction l with
  | nil => intro c h; simp [collapseWsAux] at h
  | cons d rest ih =>
    intro c h
    by_cases hd : isSpaceCharB d = true
    · simp only [collapseWsAux, hd, if_true] at h
      exact ih c h
    · simp only [collapseWsAux, hd, Bool.false_eq_true, if_false, List.head?_cons,
        Option.some.injEq] at h
      subst h
      simpa using hd

theorem collapseWsAux_chain :
    ∀ (l : List Char) (flag : Bool), NoTwoSpaces (collapseWsAux flag l) := by
  intro l
  induction l with
  | nil => intro flag; simp [collapseWsAux, NoTwoSpaces]
  | cons c rest ih =>
    intro flag
    by_cases hs : isSpaceCharB c = true
    · cases flag
      · simp only [collapseWsAux, hs, if_true, Bool.false_eq_true, if_false]
        rw [NoTwoSpaces, List.chain'_cons']
        refine ⟨?_, ih true⟩
        intro b hb
        exact Or.inr (collapseWsAux_head_true rest b hb)
      · simp only [collapseWsAux, hs, if_true]
        exact ih true
    · simp only [collapseWsAux, hs, Bool.false_eq_true, if_false]
      rw [NoTwoSpaces, List.chain'_cons']
      refine ⟨?_, ih false⟩
      intro b _
      exact Or.inl (by simpa using hs)

theorem mem_collapseWsAux :
    ∀ (l : List Char) (flag : Bool) (c : Char), c ∈ collapseWsAux flag l →
      c = Char.ofNat 0x20 ∨ (c ∈ l ∧ isSpaceCharB c = false) := by
  intro l
  induction l with
  | nil => intro flag c h; simp [collapseWsAux] at h
  | cons d rest ih =>
    intro flag c h
    by_cases hd : isSpaceCharB d = true
    · cases flag
      · simp only [collapseWsAux, hd, if_true, Bool.false_eq_true, if_false,
          List.mem_cons] at h
        rcases h with rfl | h
        · exact Or.inl rfl
        · rcases ih true c h with h1 | ⟨h2, h3⟩
          · exact Or.inl h1
          · exact Or.inr ⟨List.mem_cons_of_mem d h2, h3⟩
      · simp only [collapseWsAux, hd, if_true] at h
        rcases ih true c h with h1 | ⟨h2, h3⟩
        · exact Or.inl h1
        · exact Or.inr ⟨List.mem_cons_of_mem d h2, h3⟩
    · simp only [collapseWsAux, hd, Bool.false_eq_true, if_false, List.mem_cons] at h
      rcases h with rfl | h
      · exact Or.inr ⟨List.mem_cons_self c rest, by simpa using hd⟩
      · rcases ih false c h with h1 | ⟨h2, h3⟩
        · exact Or.inl h1
        · exact Or.inr ⟨List.mem_cons_of_mem d h2, h3⟩

theorem collapseWsAux_true_eq_false {l : List Char}
    (h : ∀ c, l.head? = some c → isSpaceCharB c = false) :
    collapseWsAux true l = collapseWsAux false l := by
  cases l with
  | nil => rfl
  | cons c rest =>
    have hc := h c rfl
    simp [collapseWsAux, hc]

theorem collapseWsAux_false_id :
    ∀ l : List Char, (∀ c ∈ l, canonChar c) → NoTwoSpaces l →
      collapseWsAux false l = l := by
  intro l
  induction l with
  | nil => intro _ _; rfl
  | cons c rest ih =>
    intro hcanon hchain
    rw [NoTwoSpaces, List.chain'_cons'] at hchain
    by_cases hs : isSpaceCharB c = true
    · have hc : c = Char.ofNat 0x20 :=
        canonChar_space (hcanon c (List.mem_cons_self c rest)) hs
      simp only [collapseWsAux, hs, if_true, Bool.false_eq_true, if_false]
      rw [collapseWsAux_true_eq_false, ih (fun d hd => hcanon d (List.mem_cons_of_mem c hd))
        hchain.2, ← hc]
      intro d hd
      rcases hchain.1 d hd with h1 | h1
      · exact absurd hs (by simp [h1])
      · exact h1
    · simp only [collapseWsAux, hs, Bool.false_eq_true, if_false]
      rw [ih (fun d hd => hcanon d (List.mem_cons_of_mem c hd)) hchain.2]

theorem dropWhile_head_not (p : Char → Bool) :
    ∀ (l : List Char) (c : Char), (l.dropWhile p).head? = some c → p c = false := by
  intro l
  induction l with
  | nil => intro c h; simp at h
  | cons d rest ih =>
    intro c h
    by_cases hd : p d = true
    · rw [List.dropWhile_cons_of_pos hd] at h
      exact ih c h
    · rw [List.dropWhile_cons_of_neg (by simpa using hd)] at h
      simp only [List.head?_cons, Option.some.injEq] at h
      subst h
      simpa using hd

theorem mem_pyStrip {l : List Char} {c : Char} (h : c ∈ pyStrip l) : c ∈ l := by
  unfold pyStrip at h
  rw [List.mem_reverse] at h
  have h1 := (List.dropWhile_suffix isSpaceCharB).mem h
  rw [List.mem_reverse] at h1
  exact (List.dropWhile_suffix isSpaceCharB).mem h1

theorem pyStrip_chain {l : List Char} (h : NoTwoSpaces l) : NoTwoSpaces (pyStrip l) := by
  unfold pyStrip
  unfold NoTwoSpaces at h ⊢
  have hsymm : ∀ m : List Char,
      List.Chain' (fun a b => isSpaceCharB a = false ∨ isSpaceCharB b = false) m →
      List.Chain' (fun a b => isSpaceCharB a = false ∨ isSpaceCharB b = false) m.reverse := by
    intro m hm
    rw [List.chain'_reverse]
    exact hm.imp (fun a b hab => hab.symm)
  have h1 := h.suffix (List.dropWhile_suffix isSpaceCharB)
  have h2 := hsymm _ h1
  have h3 := h2.suffix (List.dropWhile_suffix isSpaceCharB)
  exact hsymm _ h3

theorem pyStrip_head {l : List Char} :
    ∀ c, (pyStrip l).head? = some c → isSpaceCharB c = false := by
  intro c h
  unfold pyStrip at h
  rw [List.head?_reverse] at h
  have hZ : List.dropWhile isSpaceCharB ((l.dropWhile isSpaceCharB).reverse) ≠ [] := by
    intro hnil
    rw [hnil] at h
    simp at h
  obtain ⟨pre, hpre⟩ := List.dropWhile_suffix (l := (l.dropWhile isSpaceCharB).reverse)
    isSpaceCharB
  have hlast : ((l.dropWhile isSpaceCharB).reverse).getLast? = some c := by
    rw [← hpre, List.getLast?_append, h]
    rfl
  rw [List.getLast?_reverse] at hlast
  exact dropWhile_head_not isSpaceCharB l c hlast

theorem pyStrip_last {l : List Char} :
    ∀ c, (pyStrip l).getLast? = some c → isSpaceCharB c = false := by
  intro c h
  unfold pyStrip at h
  rw [List.getLast?_reverse] at h
  exact dropWhile_head_not isSpaceCharB _ c h

theorem pyStrip_id {l : List Char}
    (hhead : ∀ c, l.head? = some c → isSpaceCharB c = false)
    (hlast : ∀ c, l.getLast? = some c → isSpaceCharB c = false) :
    pyStrip l = l := by
  unfold pyStrip
  have hd1 : l.dropWhile isSpaceCharB = l := by
    cases l with
    | nil => rfl
    | cons c rest =>
      exact List.dropWhile_cons_of_neg (by simp [hhead c rfl])
  rw [hd1]
  have hd2 : l.reverse.dropWhile isSpaceCharB = l.reverse := by
    cases hr : l.reverse with
    | nil => rfl
    | cons c rest =>
      have hc : l.getLast? = some c := by
        rw [← List.head?_reverse, hr, List.head?_cons]
      rw [List.dropWhile_cons_of_neg (by simp [hlast c hc])]
  rw [hd2, List.reverse_reverse]

theorem mem_map_punct_wordspace {l : List Char} {c : Char}
    (hc : c ∈ l.map punctToSpace) :
    isWordCharB c = true ∨ isSpaceCharB c = true := by
  rcases List.mem_map.mp hc with ⟨d, _, rfl⟩
  unfold punctToSpace
  split
  · rename_i hws
    rw [Bool.or_eq_true] at hws
    exact hws
  · right
    decide

theorem pyLower_ascii {c : Char} (h : c.toNat < 128) :
    (pyLower c).toNat < 128 ∧ ¬(0x41 ≤ (pyLower c).toNat ∧ (pyLower c).toNat ≤ 0x5A) := by
  unfold pyLower
  split
  · rename_i hcond
    rw [char_toNat_ofNat (by unfold Nat.isValidChar; left; omega)]
    omega
  · rename_i hcond
    exact ⟨h, by omega⟩

theorem asciiIgnore_ascii {l : List Char} (h : ∀ c ∈ l, c.toNat < 128) :
    asciiIgnore l = l := by
  unfold asciiIgnore
  rw [List.filter_eq_self]
  intro c hc
  simpa using h c hc

theorem pyNFKD_ascii {l : List Char} (h : ∀ c ∈ l, c.toNat < 128) : pyNFKD l = l := by
  induction l with
  | nil => rfl
  | cons c rest ih =>
    unfold pyNFKD
    simp only [List.map_cons, List.flatten_cons]
    rw [nfkdChar_of_lt (by have := h c (List.mem_cons_self c rest); omega)]
    have hrest := ih (fun d hd => h d (List.mem_cons_of_mem c hd))
    unfold pyNFKD at hrest
    rw [hrest]
    rfl

theorem mem_z_canon_of_ascii {s : List Char} {c : Char} (hs : ∀ d ∈ s, d.toNat < 128)
    (hc : c ∈ (asciiIgnore (pyNFKD (s.map pyLower))).map punctToSpace) :
    canonChar c ∨ isSpaceCharB c = true := by
  have hlow : ∀ d ∈ s.map pyLower, d.toNat < 128 ∧ ¬(0x41 ≤ d.toNat ∧ d.toNat ≤ 0x5A) := by
    intro d hd
    rcases List.mem_map.mp hd with ⟨e, he, rfl⟩
    exact pyLower_ascii (hs e he)
  rw [pyNFKD_ascii (fun d hd => (hlow d hd).1),
    asciiIgnore_ascii (fun d hd => (hlow d hd).1)] at hc
  rcases List.mem_map.mp hc with ⟨d, hd, rfl⟩
  have hdfacts := hlow d hd
  unfold punctToSpace
  split
  · rename_i hws
    rw [Bool.or_eq_true] at hws
    rcases hws with hw | hsp
    · rw [isWordCharB_iff] at hw
      left
      unfold canonChar
      omega
    · right
      exact hsp
  · left
    unfold canonChar
    left
    rfl

theorem normalize_data_eq (s : String) (h : ¬ s.data = []) :
    (normalize_text s).data
      = pyStrip (collapseWs ((asciiIgnore (pyNFKD (s.data.map pyLower))).map punctToSpace)) := by
  unfold normalize_text
  rw [if_neg h]

/-- Shape invariant of every normalize_text output: only canonical
characters or uppercase ASCII letters (which compatibility
decompositions can produce), no two adjacent whitespace characters, and
no leading or trailing whitespace. -/
theorem normalize_canon (s : String) :
    (∀ c ∈ (normalize_text s).data, canonChar c ∨ (0x41 ≤ c.toNat ∧ c.toNat ≤ 0x5A)) ∧
      NoTwoSpaces (normalize_text s).data ∧
      (∀ c, (normalize_text s).data.head? = some c → isSpaceCharB c = false) ∧
      (∀ c, (normalize_text s).data.getLast? = some c → isSpaceCharB c = false) := by
  by_cases hs : s.data = []
  · unfold normalize_text
    rw [if_pos hs]
    exact ⟨by simp, by simp [NoTwoSpaces], by simp, by simp⟩
  · rw [normalize_data_eq s hs]
    refine ⟨?_, pyStrip_chain (collapseWsAux_chain _ false), pyStrip_head, pyStrip_last⟩
    intro c hc
    have h1 := mem_pyStrip hc
    unfold collapseWs at h1
    rcases mem_collapseWsAux _ false c h1 with h2 | ⟨h2, h3⟩
    · subst h2
      left
      unfold canonChar
      left
      rfl
    · rcases mem_map_punct_wordspace h2 with h4 | h4
      · rw [isWordCharB_iff] at h4
        unfold canonChar
        omega
      · rw [h4] at h3
        exact absurd h3 (by simp)

/-- Output characters of normalize_text are always ASCII. -/
theorem normalize_ascii (s : String) :
    ∀ c ∈ (normalize_text s).data, c.toNat < 128 := by
  intro c hc
  rcases (normalize_canon s).1 c hc with h | h
  · exact canonChar_lt h
  · omega

/-- With all-ASCII input, normalize_text yields only canonical
characters: str.lower removes the ASCII uppercase letters and NFKD is
the identity on ASCII, so no uppercase survives. -/
theorem normalize_ascii_canon {s : String} (hs : ∀ c ∈ s.data, c.toNat < 128) :
    ∀ c ∈ (normalize_text s).data, canonChar c := by
  intro c hc
  by_cases hempty : s.data = []
  · unfold normalize_text at hc
    rw [if_pos hempty] at hc
    simp at hc
  · rw [normalize_data_eq s hempty] at hc
    have h1 := mem_pyStrip hc
    unfold collapseWs at h1
    rcases mem_collapseWsAux _ false c h1 with h2 | ⟨h2, h3⟩
    · subst h2
      unfold canonChar
      left
      rfl
    · rcases mem_z_canon_of_ascii hs h2 with h4 | h4
      · exact h4
      · rw [h4] at h3
        exact absurd h3 (by simp)

/-- Canonical lists are fixed points of normalize_text. -/
theorem normalize_canon_fixed {y : List Char} (h1 : ∀ c ∈ y, canonChar c)
    (h2 : NoTwoSpaces y)
    (h3 : ∀ c, y.head? = some c → isSpaceCharB c = false)
    (h4 : ∀ c, y.getLast? = some c → isSpaceCharB c = false) :
    normalize_text (String.mk y) = String.mk y := by
  by_cases hy : y = []
  · subst hy
    rfl
  · unfold normalize_text
    rw [if_neg hy]
    have hdata : (String.mk y).data = y := rfl
    rw [hdata, map_pyLower_canon h1, pyNFKD_canon h1, asciiIgnore_canon h1, map_punct_canon h1]
    unfold collapseWs
    rw [collapseWsAux_false_id y h1 h2, pyStrip_id h3 h4]

/-- C5 counterexample: normalize_text is not idempotent.  The trade
mark sign is fixed by str.lower, and NFKD then decomposes it to the two
uppercase letters TM, which survive the ASCII filter; the second
normalization lowercases them, so the two results differ. -/
theorem normalize_not_idempotent :
    normalize_text "™" = "TM" ∧ normalize_text (normalize_text "™") = "tm" ∧
      normalize_text (normalize_text "™") ≠ normalize_text "™" := by
  refine ⟨rfl, rfl, ?_⟩
  decide

/-- C5 amended: normalize_text is idempotent on every string whose
normalized form contains no uppercase ASCII letter — in particular on
all input whose normalization involves no uppercase-producing
compatibility decomposition, such as the documented accent example — and
one extra application always reaches a fixed point, because the output
is pure ASCII and normalizing ASCII leaves no uppercase; empty input
still yields the empty string without failing. -/
theorem normalize_idempotent_on_lowercase :
    (∀ x : String, (∀ c ∈ (normalize_text x).data, ¬(0x41 ≤ c.toNat ∧ c.toNat ≤ 0x5A)) →
        normalize_text (normalize_text x) = normalize_text x) ∧
      (∀ x : String, normalize_text (normalize_text (normalize_text x))
          = normalize_text (normalize_text x)) ∧
      normalize_text "Café!!" = normalize_text "cafe" ∧ normalize_text "" = "" := by
  have hfix : ∀ x : String, (∀ c ∈ (normalize_text x).data, canonChar c) →
      normalize_text (normalize_text x) = normalize_text x := by
    intro x hcanon
    obtain ⟨_, h2, h3, h4⟩ := normalize_canon x
    have h := normalize_canon_fixed hcanon h2 h3 h4
    have heta : String.mk (normalize_text x).data = normalize_text x := rfl
    rw [heta] at h
    exact h
  refine ⟨?_, ?_, rfl, rfl⟩
  · intro x hnoupper
    refine hfix x ?_
    intro c hc
    rcases (normalize_canon x).1 c hc with h | h
    · exact h
    · exact absurd h (hnoupper c hc)
  · intro x
    exact hfix (normalize_text x) (normalize_ascii_canon (normalize_ascii x))

theorem normalize_idempotent_on_lowercase_witness :
    normalize_text (normalize_text "Café!!") = normalize_text "Café!!" :=
  normalize_idempotent_on_lowercase.1 "Café!!" (by decide)

end Claims

end PriceComparison
